import Mathlib

/-!
Verification of the pipeline-execution core of `unix_exec_piper`.

We shallowly embed the Rust sources (`src/data.rs`, `src/pipe.rs`,
`src/lib.rs`) as Lean definitions:

* Rust structs become Lean structures with the same field names.
* Fatal errors (`panic!` / failed `assert!`) become `Except String` errors
  carrying the panic message; a function that cannot panic stays pure.
* Syscalls are oracles passed as function arguments: `sys : PipeEvent → Bool`
  says whether a given descriptor operation succeeds, `forkRes i` is the value
  `fork()` returns to the parent at stage `i`, and `wait pid wnohang` is the
  `(return value, status word)` pair produced by `waitpid`.
* Functions that only perform syscalls additionally return the list of
  descriptor events they issued (their trace), so that frame properties
  ("this call closes nothing") are statable.
* Machine integers (`c_int`, `pid_t`) become `Int`; the status-word macros
  `WIFEXITED` / `WEXITSTATUS` are spelled out as arithmetic on `Int`
  (`(s & 0x7f) == 0` and `(s >> 8) & 0xff` on the nonnegative status words
  `waitpid` produces).
-/

namespace UnixExecPiper

/-- Standard input file descriptor (`libc::STDIN_FILENO`). -/
def STDIN_FILENO : Int := 0

/-- Standard output file descriptor (`libc::STDOUT_FILENO`). -/
def STDOUT_FILENO : Int := 1

/-! ## data.rs: BasicCmd, CmdChain and their builders -/

/-- Mirror of `BasicCmd` in `src/data.rs`: one parsed command of a chain. -/
structure BasicCmd where
  executable : String
  args : List String
  in_red_path : Option String
  out_red_path : Option String
  is_first : Bool
  is_last : Bool
  deriving Repr, DecidableEq

/-- Mirror of `BasicCmd::is_in_middle`. -/
def BasicCmd.is_in_middle (c : BasicCmd) : Bool :=
  !c.is_first && !c.is_last

/-- Mirror of `BasicCmdBuilder` in `src/data.rs`. -/
structure BasicCmdBuilder where
  executable : Option String
  args : List String
  input_redirect_path : Option String
  output_redirect_path : Option String
  is_first : Bool
  is_last : Bool
  deriving Repr, DecidableEq

/-- Mirror of `BasicCmdBuilder::new`. -/
def BasicCmdBuilder.new : BasicCmdBuilder :=
  { executable := none, args := [], input_redirect_path := none,
    output_redirect_path := none, is_first := false, is_last := false }

/-- Mirror of `BasicCmdBuilder::set_executable`. -/
def BasicCmdBuilder.set_executable (b : BasicCmdBuilder) (e : String) : BasicCmdBuilder :=
  { b with executable := some e }

/-- Mirror of `BasicCmdBuilder::add_arg`. -/
def BasicCmdBuilder.add_arg (b : BasicCmdBuilder) (a : String) : BasicCmdBuilder :=
  { b with args := b.args ++ [a] }

/-- Mirror of `BasicCmdBuilder::set_input_redirect_path`. -/
def BasicCmdBuilder.set_input_redirect_path (b : BasicCmdBuilder) (p : String) : BasicCmdBuilder :=
  { b with input_redirect_path := some p }

/-- Mirror of `BasicCmdBuilder::set_output_redirect_path`. -/
def BasicCmdBuilder.set_output_redirect_path (b : BasicCmdBuilder) (p : String) : BasicCmdBuilder :=
  { b with output_redirect_path := some p }

/-- Mirror of `BasicCmdBuilder::set_is_first` (private, used by the chain builder). -/
def BasicCmdBuilder.set_is_first (b : BasicCmdBuilder) (v : Bool) : BasicCmdBuilder :=
  { b with is_first := v }

/-- Mirror of `BasicCmdBuilder::set_is_last` (private, used by the chain builder). -/
def BasicCmdBuilder.set_is_last (b : BasicCmdBuilder) (v : Bool) : BasicCmdBuilder :=
  { b with is_last := v }

/-- Mirror of `impl Builder<BasicCmd> for BasicCmdBuilder`: the `assert!` on a
non-empty argument list and the `expect` on the executable become errors. -/
def BasicCmdBuilder.build (b : BasicCmdBuilder) : Except String BasicCmd :=
  if b.args.isEmpty then
    .error "args must at least contain the executable name!"
  else
    match b.executable with
    | none => .error "Must have value"
    | some e =>
      .ok { executable := e, args := b.args, in_red_path := b.input_redirect_path,
            out_red_path := b.output_redirect_path, is_first := b.is_first,
            is_last := b.is_last }

/-- Mirror of `CmdChain` in `src/data.rs`. -/
structure CmdChain where
  background : Bool
  cmds : List BasicCmd
  deriving Repr, DecidableEq

/-- Mirror of `CmdChain::length`. -/
def CmdChain.length (c : CmdChain) : Nat := c.cmds.length

/-- Mirror of `CmdChainBuilder` in `src/data.rs`. -/
structure CmdChainBuilder where
  background : Bool
  cmds : List BasicCmdBuilder
  deriving Repr, DecidableEq

/-- Mirror of `CmdChainBuilder::new`. -/
def CmdChainBuilder.new : CmdChainBuilder :=
  { background := false, cmds := [] }

/-- Mirror of `CmdChainBuilder::set_background`. -/
def CmdChainBuilder.set_background (b : CmdChainBuilder) (v : Bool) : CmdChainBuilder :=
  { b with background := v }

/-- Mirror of `CmdChainBuilder::add_cmd`. -/
def CmdChainBuilder.add_cmd (b : CmdChainBuilder) (c : BasicCmdBuilder) : CmdChainBuilder :=
  { b with cmds := b.cmds ++ [c] }

/-- First half of `impl Builder<CmdChain> for CmdChainBuilder`: the
`for i in 0..len` loop that gives the command builder at index `i` the flags
`is_first := (i == 0)` and `is_last := (i+1 == len)`.  Note the source performs
no check that the command list is non-empty. -/
def CmdChainBuilder.flag_cmds (b : CmdChainBuilder) : List BasicCmdBuilder :=
  (List.range b.cmds.length).zipWith
    (fun i cmd => (cmd.set_is_first (i == 0)).set_is_last (i + 1 == b.cmds.length)) b.cmds

/-- Second half of `CmdChainBuilder::build`: each flagged command builder is
built in order. -/
def CmdChainBuilder.build (b : CmdChainBuilder) : Except String CmdChain := do
  let built ← b.flag_cmds.mapM BasicCmdBuilder.build
  .ok { background := b.background, cmds := built }

/-! ## data.rs: ProcessState -/

/-- Mirror of `ProcessState` in `src/data.rs`. -/
structure ProcessState where
  executable : String
  pid : Int
  finished : Bool
  exit_code : Int
  deriving Repr, DecidableEq

/-- Mirror of `ProcessState::new`: freshly forked, not finished, exit code -1. -/
def ProcessState.new (executable : String) (pid : Int) : ProcessState :=
  { executable := executable, pid := pid, finished := false, exit_code := -1 }

/-- Mirror of `ProcessState::finish`: panics if the state is already finished,
otherwise records the exit code and sets the finished flag. -/
def ProcessState.finish (s : ProcessState) (exit_code : Int) : Except String ProcessState :=
  if s.finished then
    .error "Can't update process state because process is already finished!"
  else
    .ok { s with finished := true, exit_code := exit_code }

/-- Mirror of the `ProcessState::exit_code` getter: its `assert!` makes reading
the code while unfinished fatal. -/
def ProcessState.read_exit_code (s : ProcessState) : Except String Int :=
  if s.finished then
    .ok s.exit_code
  else
    .error "A process must be finished before exit_code is a sane value!"

/-! ## pipe.rs: Pipe -/

/-- Descriptor-level syscall events a `Pipe` can issue.  They let us state
which descriptors an operation closes or duplicates. -/
inductive PipeEvent where
  | close (fd : Int)
  | dup2 (src dst : Int)
  | pipe_create (read_fd write_fd : Int)
  deriving Repr, DecidableEq

/-- Mirror of `Pipe` in `src/pipe.rs`: the `fds: [i32; 2]` array is split into
its two entries (`fds[0]` = read end, `fds[1]` = write end, per `PipeEnd`). -/
structure Pipe where
  read_fd : Int
  write_fd : Int
  locked : Bool
  read_closed : Bool
  write_closed : Bool
  deriving Repr, DecidableEq

/-- Mirror of `Pipe::new` for a successfully allocated pipe: both ends open,
unlocked.  The caller supplies the two fresh descriptors the kernel handed out;
allocation failure (`libc::pipe` returning -1) is handled at the call site in
the orchestrator via the syscall oracle. -/
def Pipe.new (read_fd write_fd : Int) : Pipe :=
  { read_fd := read_fd, write_fd := write_fd, locked := false,
    read_closed := false, write_closed := false }

/-- Mirror of `Pipe::as_read_end`, with `sys` deciding syscall success: panics
if the pipe is locked; otherwise locks it, closes the write end (fatal on
failure), marks it closed, and duplicates the read end onto standard input
(fatal on failure).  Returns the new state and the events issued. -/
def Pipe.as_read_end (sys : PipeEvent → Bool) (p : Pipe) :
    Except String (Pipe × List PipeEvent) :=
  if p.locked then .error "Pipe is already locked!"
  else
    let p1 : Pipe := { p with locked := true }
    if !sys (.close p1.write_fd) then .error "Closing Write-end of pipe failed!"
    else
      let p2 : Pipe := { p1 with write_closed := true }
      if !sys (.dup2 p2.read_fd STDIN_FILENO) then
        .error "Connecting Read-end of Pipe with 0 failed!"
      else
        .ok (p2, [.close p1.write_fd, .dup2 p2.read_fd STDIN_FILENO])

/-- Mirror of `Pipe::as_write_end`: symmetric to `Pipe.as_read_end`, closing
the read end and duplicating the write end onto standard output. -/
def Pipe.as_write_end (sys : PipeEvent → Bool) (p : Pipe) :
    Except String (Pipe × List PipeEvent) :=
  if p.locked then .error "Pipe is already locked!"
  else
    let p1 : Pipe := { p with locked := true }
    if !sys (.close p1.read_fd) then .error "Closing Read-end of pipe failed!"
    else
      let p2 : Pipe := { p1 with read_closed := true }
      if !sys (.dup2 p2.write_fd STDOUT_FILENO) then
        .error "Connecting Write-end of Pipe with 1 failed!"
      else
        .ok (p2, [.close p1.read_fd, .dup2 p2.write_fd STDOUT_FILENO])

/-- Mirror of `Pipe::parent_close_all`: closes whichever ends are not yet
closed (each close fatal on failure) and marks them closed. -/
def Pipe.parent_close_all (sys : PipeEvent → Bool) (p : Pipe) :
    Except String (Pipe × List PipeEvent) :=
  if !p.write_closed then
    if !sys (.close p.write_fd) then .error "Closing Write-end of pipe failed!"
    else
      let p1 : Pipe := { p with write_closed := true }
      if !p1.read_closed then
        if !sys (.close p1.read_fd) then .error "Closing Read-end of pipe failed!"
        else .ok ({ p1 with read_closed := true },
                  [.close p.write_fd, .close p1.read_fd])
      else .ok (p1, [.close p.write_fd])
  else
    if !p.read_closed then
      if !sys (.close p.read_fd) then .error "Closing Read-end of pipe failed!"
      else .ok ({ p with read_closed := true }, [.close p.read_fd])
    else .ok (p, [])

/-- Mirror of `impl Drop for Pipe`: the events the destructor issues — it
closes any end not already marked closed. -/
def Pipe.drop_events (p : Pipe) : List PipeEvent :=
  (if !p.write_closed then [PipeEvent.close p.write_fd] else []) ++
  (if !p.read_closed then [PipeEvent.close p.read_fd] else [])

/-! ## lib.rs: waitpid status decoding -/

/-- Mirror of glibc `WIFEXITED(status)`: the low seven bits of the status word
are zero.  Status words produced by `waitpid` are nonnegative. -/
def WIFEXITED (status : Int) : Bool := status % 128 == 0

/-- Mirror of glibc `WEXITSTATUS(status)`: bits 8..15 of the status word. -/
def WEXITSTATUS (status : Int) : Int := (status / 256) % 256

/-! ## lib.rs: update_process_states (the Wait/Poll engine) -/

/-- Mirror of `update_process_states` in `src/lib.rs`.  `wait pid wnohang` is
the oracle for `libc::waitpid(pid, &status, flags)` with
`flags = WNOHANG if wnohang else 0`, returning `(res, status)`.  Entries whose
`finished` flag is set are filtered out before any query, exactly as in the
source.  For an unfinished entry: `res = 0` under `WNOHANG` leaves it
unfinished and clears the all-finished flag; `res = -1` is fatal; any other
`res` finishes the entry with `WEXITSTATUS status`.  Besides the updated
states and the all-finished flag we return the list of pids actually queried. -/
def update_process_states (wait : Int → Bool → Int × Int) :
    List ProcessState → Bool → Except String (List ProcessState × Bool × List Int)
  | [], _ => .ok ([], true, [])
  | s :: rest, wnohang =>
    if s.finished then do
      let (rest', fin, queried) ← update_process_states wait rest wnohang
      .ok (s :: rest', fin, queried)
    else
      let (res, status) := wait s.pid wnohang
      if wnohang && res == 0 then do
        let (rest', _, queried) ← update_process_states wait rest wnohang
        .ok (s :: rest', false, s.pid :: queried)
      else if res == -1 then
        .error "Failure during waitpid!"
      else do
        let s' ← s.finish (WEXITSTATUS status)
        let (rest', fin, queried) ← update_process_states wait rest wnohang
        .ok (s' :: rest', fin, s.pid :: queried)

/-! ## lib.rs: execute_piped_cmd_chain (the Pipeline Orchestrator)

We embed the control flow of the parent process.  `fork()` returns twice, but
the loop in `execute_piped_cmd_chain` only continues in the parent (the child
branch ends in `execvp`, which replaces the process image and never returns);
the child-side wiring is the `Pipe.as_read_end` / `Pipe.as_write_end` calls
modelled above.  `forkRes i` is what `fork()` returns in the parent at stage
`i`: the child's pid (positive) or -1 on failure.  Fresh pipe descriptors are
drawn from a counter `next_fd` (two per pipe), mirroring kernel allocation of
unused descriptors. -/

/-- Result of the parent-side fork loop: the recorded child pids in arrival
order, one Bool per stage telling whether `Pipe::new` ran at that stage, and
the descriptor counter after the loop. -/
structure ForkLoopResult where
  pids : List Int
  created : List Bool
  next_fd : Int
  deriving Repr, DecidableEq

/-- Mirror of the `for i in 0..cmds.length()` loop of
`execute_piped_cmd_chain` in `src/lib.rs`, parent branch.  Per stage: promote
`pipe_to_next` to `pipe_to_current` if present; if the stage is not last,
create a new pipe (fatal if the kernel cannot); fork (fatal on -1; the
`pid = 0` child branch never returns to this loop — it exec's — so it is an
error value here, unreachable when `forkRes` is positive); in the parent,
record the pid and release both ends of `pipe_to_current`. -/
def forkLoop (sys : PipeEvent → Bool) (forkRes : Nat → Int) :
    List BasicCmd → Nat → Option Pipe → Option Pipe → Int →
    Except String ForkLoopResult
  | [], _, _, _, next_fd => .ok { pids := [], created := [], next_fd := next_fd }
  | cmd :: rest, i, pipe_to_current, pipe_to_next, next_fd =>
    let promoted_current :=
      if pipe_to_next.isSome then pipe_to_next else pipe_to_current
    let promoted_next :=
      if pipe_to_next.isSome then none else pipe_to_next
    let madePipe := !cmd.is_last
    if madePipe && !sys (.pipe_create next_fd (next_fd + 1)) then
      .error "Pipe creation failed!"
    else
      let new_next := if madePipe then some (Pipe.new next_fd (next_fd + 1))
        else promoted_next
      let new_fd := if madePipe then next_fd + 2 else next_fd
      let pid := forkRes i
      if pid == -1 then .error "Fork failed!"
      else if pid > 0 then do
        let closed_current ← match promoted_current with
          | some p => do
            let (p', _) ← p.parent_close_all sys
            pure (some p')
          | none => pure none
        let r ← forkLoop sys forkRes rest (i + 1) closed_current new_next new_fd
        .ok { r with pids := pid :: r.pids, created := madePipe :: r.created }
      else
        .error "child branch: process image replaced by execvp"

/-- Result of `execute_piped_cmd_chain`: the process states it returns, plus
(for stating trace properties) the all-finished flag of its single wait/poll
pass, the pids that pass queried, the recorded pids, and the per-stage pipe
creation record. -/
structure ExecResult where
  states : List ProcessState
  all_finished : Bool
  queried : List Int
  pids : List Int
  created : List Bool
  deriving Repr, DecidableEq

/-- Initial process states built after the fork loop, one per recorded pid in
stage order, each not finished (the `pids.into_iter().map(...)` in
`src/lib.rs`). -/
def initialStates (cmds : List BasicCmd) (pids : List Int) : List ProcessState :=
  List.zipWith (fun cmd pid => ProcessState.new cmd.executable pid) cmds pids

/-- Mirror of `execute_piped_cmd_chain` in `src/lib.rs`, parent side: run the
fork loop over the chain's commands, build one `ProcessState` per recorded
pid, then perform exactly one `update_process_states` pass whose `wnohang`
argument is the chain's `background` flag. -/
def execute_piped_cmd_chain (sys : PipeEvent → Bool) (forkRes : Nat → Int)
    (wait : Int → Bool → Int × Int) (cmds : CmdChain) :
    Except String ExecResult := do
  let r ← forkLoop sys forkRes cmds.cmds 0 none none 3
  let process_states := initialStates cmds.cmds r.pids
  let (states', all_finished, queried) ←
    update_process_states wait process_states cmds.background
  .ok { states := states', all_finished := all_finished, queried := queried,
        pids := r.pids, created := r.created }

/-! ## Theorems about ProcessState (claims C6, C7) -/

/-- C6: reading the exit code of a `ProcessState` while its finished flag is
false fails fatally, and reading succeeds exactly when finished is true. -/
theorem read_exit_code_iff_finished (s : ProcessState) :
    (s.finished = false → s.read_exit_code =
      .error "A process must be finished before exit_code is a sane value!") ∧
    ((∃ c, s.read_exit_code = .ok c) ↔ s.finished = true) := by
  unfold ProcessState.read_exit_code
  cases h : s.finished <;> simp

/-- Witness for C6 at a concrete unfinished and a concrete finished state. -/
theorem read_exit_code_iff_finished_witness :
    (ProcessState.new "cat" 7).read_exit_code =
      .error "A process must be finished before exit_code is a sane value!" ∧
    (∃ c, (ProcessState.mk "cat" 7 true 0).read_exit_code = .ok c) :=
  ⟨(read_exit_code_iff_finished (ProcessState.new "cat" 7)).1 rfl,
   (read_exit_code_iff_finished (ProcessState.mk "cat" 7 true 0)).2.mpr rfl⟩

/-- C7: `ProcessState.finish` on an already-finished state is a fatal contract
violation; on an unfinished state it sets the finished flag and stores the
exit code (all other fields unchanged). -/
theorem finish_transitions_once (s : ProcessState) (c : Int) :
    (s.finished = true → s.finish c =
      .error "Can't update process state because process is already finished!") ∧
    (s.finished = false →
      s.finish c = .ok { s with finished := true, exit_code := c }) := by
  unfold ProcessState.finish
  cases h : s.finished <;> simp

/-- Witness for C7: a fresh state finishes once, and finishing it again is an
error. -/
theorem finish_transitions_once_witness :
    (ProcessState.new "cat" 7).finish 0 = .ok (ProcessState.mk "cat" 7 true 0) ∧
    (ProcessState.mk "cat" 7 true 0).finish 1 =
      .error "Can't update process state because process is already finished!" :=
  ⟨(finish_transitions_once (ProcessState.new "cat" 7) 0).2 rfl,
   (finish_transitions_once (ProcessState.mk "cat" 7 true 0) 1).1 rfl⟩

/-! ## Theorems about Pipe (claims C5, C8, C10) -/

/-- C5: once a `Pipe` is locked, both end-claiming operations fail fatally;
the first claim-as-read-end on an unlocked pipe sets the locked flag, closes
the write end and marks it closed, then duplicates the read end onto standard
input — and the write-end claim is symmetric onto standard output. -/
theorem pipe_single_claim (p : Pipe) (sys : PipeEvent → Bool) :
    (p.locked = true →
      p.as_read_end sys = .error "Pipe is already locked!" ∧
      p.as_write_end sys = .error "Pipe is already locked!") ∧
    (∀ q evs, p.as_read_end sys = .ok (q, evs) →
      p.locked = false ∧ q.locked = true ∧ q.write_closed = true ∧
      evs = [.close p.write_fd, .dup2 p.read_fd STDIN_FILENO]) ∧
    (∀ q evs, p.as_write_end sys = .ok (q, evs) →
      p.locked = false ∧ q.locked = true ∧ q.read_closed = true ∧
      evs = [.close p.read_fd, .dup2 p.write_fd STDOUT_FILENO]) := by
  unfold Pipe.as_read_end Pipe.as_write_end
  refine ⟨fun h => by simp [h], fun q evs h => ?_, fun q evs h => ?_⟩
  · cases hl : p.locked <;> simp [hl] at h
    cases hc : sys (.close p.write_fd) <;> simp [hc] at h
    cases hd : sys (.dup2 p.read_fd STDIN_FILENO) <;> simp [hd] at h
    obtain ⟨hq, hevs⟩ := h
    subst hq
    simp [hevs]
  · cases hl : p.locked <;> simp [hl] at h
    cases hc : sys (.close p.read_fd) <;> simp [hc] at h
    cases hd : sys (.dup2 p.write_fd STDOUT_FILENO) <;> simp [hd] at h
    obtain ⟨hq, hevs⟩ := h
    subst hq
    simp [hevs]

/-- Witness for C5: a locked pipe rejects claiming; an unlocked pipe is read-
claimed, ending locked with the write end marked closed. -/
theorem pipe_single_claim_witness :
    (Pipe.mk 3 4 true false false).as_read_end (fun _ => true) =
      .error "Pipe is already locked!" ∧
    (Pipe.mk 3 4 true false false).as_write_end (fun _ => true) =
      .error "Pipe is already locked!" ∧
    (Pipe.mk 3 4 true false true).locked = true ∧
    (Pipe.mk 3 4 true false true).write_closed = true :=
  ⟨((pipe_single_claim (Pipe.mk 3 4 true false false) (fun _ => true)).1 rfl).1,
   ((pipe_single_claim (Pipe.mk 3 4 true false false) (fun _ => true)).1 rfl).2,
   ((pipe_single_claim (Pipe.new 3 4) (fun _ => true)).2.1
      (Pipe.mk 3 4 true false true) [.close 4, .dup2 3 STDIN_FILENO] rfl).2.1,
   ((pipe_single_claim (Pipe.new 3 4) (fun _ => true)).2.1
      (Pipe.mk 3 4 true false true) [.close 4, .dup2 3 STDIN_FILENO] rfl).2.2.1⟩

/-- C8: `parent_close_all` closes exactly the ends whose closed flag is false
and marks them closed; afterwards both flags are true, and a second call
issues no close event and leaves the pipe unchanged. -/
theorem parent_close_all_idempotent (p : Pipe) (sys : PipeEvent → Bool)
    (q : Pipe) (evs : List PipeEvent) (h : p.parent_close_all sys = .ok (q, evs)) :
    q.read_closed = true ∧ q.write_closed = true ∧
    q.read_fd = p.read_fd ∧ q.write_fd = p.write_fd ∧ q.locked = p.locked ∧
    evs = (if p.write_closed then [] else [PipeEvent.close p.write_fd]) ++
          (if p.read_closed then [] else [PipeEvent.close p.read_fd]) ∧
    q.parent_close_all sys = .ok (q, []) := by
  unfold Pipe.parent_close_all at h ⊢
  cases hw : p.write_closed <;> cases hr : p.read_closed <;> simp [hw, hr] at h
  · cases hcw : sys (.close p.write_fd) <;> simp [hcw] at h
    cases hcr : sys (.close p.read_fd) <;> simp [hcr] at h
    obtain ⟨hq, hevs⟩ := h
    subst hq
    simp [hw, hr, hevs]
  · cases hcw : sys (.close p.write_fd) <;> simp [hcw] at h
    obtain ⟨hq, hevs⟩ := h
    subst hq
    simp [hw, hr, hevs]
  · cases hcr : sys (.close p.read_fd) <;> simp [hcr] at h
    obtain ⟨hq, hevs⟩ := h
    subst hq
    simp [hw, hr, hevs]
  · obtain ⟨hq, hevs⟩ := h
    subst hq
    simp [hw, hr, hevs]

/-- Witness for C8: releasing a fully open pipe closes both ends (write first),
and the released pipe has both closed flags set. -/
theorem parent_close_all_idempotent_witness :
    (Pipe.mk 3 4 false true true).read_closed = true ∧
    [PipeEvent.close 4, PipeEvent.close 3] =
      (if (Pipe.new 3 4).write_closed then [] else [PipeEvent.close 4]) ++
      (if (Pipe.new 3 4).read_closed then [] else [PipeEvent.close 3]) ∧
    (Pipe.mk 3 4 false true true).parent_close_all (fun _ => true) =
      .ok (Pipe.mk 3 4 false true true, []) :=
  ⟨(parent_close_all_idempotent (Pipe.new 3 4) (fun _ => true)
      (Pipe.mk 3 4 false true true) [.close 4, .close 3] rfl).1,
   (parent_close_all_idempotent (Pipe.new 3 4) (fun _ => true)
      (Pipe.mk 3 4 false true true) [.close 4, .close 3] rfl).2.2.2.2.2.1,
   (parent_close_all_idempotent (Pipe.new 3 4) (fun _ => true)
      (Pipe.mk 3 4 false true true) [.close 4, .close 3] rfl).2.2.2.2.2.2⟩

/-- C10: claiming a pipe end never marks the claimed end closed — after a
successful `as_read_end` the read-closed flag is unchanged (false stays
false), and the claimed read descriptor is closed only by the destructor;
symmetrically for `as_write_end` and the write end. -/
theorem claim_keeps_claimed_end_open (p : Pipe) (sys : PipeEvent → Bool) :
    (∀ q evs, p.as_read_end sys = .ok (q, evs) →
      q.read_closed = p.read_closed ∧
      (p.read_closed = false →
        q.read_closed = false ∧ PipeEvent.close q.read_fd ∈ q.drop_events)) ∧
    (∀ q evs, p.as_write_end sys = .ok (q, evs) →
      q.write_closed = p.write_closed ∧
      (p.write_closed = false →
        q.write_closed = false ∧ PipeEvent.close q.write_fd ∈ q.drop_events)) := by
  unfold Pipe.as_read_end Pipe.as_write_end
  constructor
  · intro q evs h
    cases hl : p.locked <;> simp [hl] at h
    cases hc : sys (.close p.write_fd) <;> simp [hc] at h
    cases hd : sys (.dup2 p.read_fd STDIN_FILENO) <;> simp [hd] at h
    obtain ⟨hq, _⟩ := h
    subst hq
    exact ⟨rfl, fun hro => by simp [Pipe.drop_events, hro]⟩
  · intro q evs h
    cases hl : p.locked <;> simp [hl] at h
    cases hc : sys (.close p.read_fd) <;> simp [hc] at h
    cases hd : sys (.dup2 p.write_fd STDOUT_FILENO) <;> simp [hd] at h
    obtain ⟨hq, _⟩ := h
    subst hq
    exact ⟨rfl, fun hwo => by simp [Pipe.drop_events, hwo]⟩

/-- Witness for C10: read-claiming a fresh pipe leaves the read end open, and
the destructor of the resulting pipe closes that read descriptor. -/
theorem claim_keeps_claimed_end_open_witness :
    (Pipe.mk 3 4 true false true).read_closed = (Pipe.new 3 4).read_closed ∧
    (Pipe.mk 3 4 true false true).read_closed = false ∧
    PipeEvent.close 3 ∈ (Pipe.mk 3 4 true false true).drop_events :=
  ⟨((claim_keeps_claimed_end_open (Pipe.new 3 4) (fun _ => true)).1
      (Pipe.mk 3 4 true false true) [.close 4, .dup2 3 STDIN_FILENO] rfl).1,
   (((claim_keeps_claimed_end_open (Pipe.new 3 4) (fun _ => true)).1
      (Pipe.mk 3 4 true false true) [.close 4, .dup2 3 STDIN_FILENO] rfl).2 rfl).1,
   (((claim_keeps_claimed_end_open (Pipe.new 3 4) (fun _ => true)).1
      (Pipe.mk 3 4 true false true) [.close 4, .dup2 3 STDIN_FILENO] rfl).2 rfl).2⟩

/-! ## Theorems about the Wait/Poll engine (claims C2, C4) -/

/-- Characterization of a successful `update_process_states` pass: the
returned flag is true exactly when every returned entry is finished; the
queried pids are exactly those of the entries that were unfinished on entry;
entries finished on entry come through unchanged; and a blocking pass
(`wnohang = false`) finishes every entry. -/
lemma update_spec (wait : Int → Bool → Int × Int) (wnohang : Bool)
    (states : List ProcessState) :
    ∀ (states' : List ProcessState) (fin : Bool) (queried : List Int),
      update_process_states wait states wnohang = .ok (states', fin, queried) →
      (fin = true ↔ ∀ s ∈ states', s.finished = true) ∧
      queried = (states.filter (fun s => !s.finished)).map (fun s => s.pid) ∧
      List.Forall₂ (fun s s' => s.finished = true → s' = s) states states' ∧
      (wnohang = false → ∀ s ∈ states', s.finished = true) := by
  induction states with
  | nil =>
    intro states' fin queried h
    simp only [update_process_states] at h
    simp at h
    obtain ⟨rfl, rfl, rfl⟩ := h
    simp
  | cons s rest ih =>
    intro states' fin queried h
    simp only [update_process_states] at h
    cases hf : s.finished <;> simp only [hf] at h
    · -- s not finished
      rcases hwres : wait s.pid wnohang with ⟨res, status⟩
      rw [hwres] at h
      by_cases hcond : (wnohang && res == 0) = true
      · simp only [hcond, if_true] at h
        rcases hr : update_process_states wait rest wnohang with e | ⟨rest', rfin, rq⟩ <;>
          rw [hr] at h <;> simp only [bind, Except.bind] at h <;> simp at h
        obtain ⟨rfl, rfl, rfl⟩ := h
        obtain ⟨ih1, ih2, ih3, ih4⟩ := ih rest' rfin rq hr
        refine ⟨?_, ?_, ?_, ?_⟩
        · simp [hf]
        · simp [hf, ih2]
        · exact List.Forall₂.cons (fun _ => rfl) ih3
        · intro hwf
          rw [hwf] at hcond
          simp at hcond
      · simp only [hcond, if_false] at h
        by_cases hres : (res == -1) = true
        · simp [hres] at h
        · simp only [hres, if_false] at h
          simp only [ProcessState.finish, hf, if_false] at h
          simp only [bind, Except.bind] at h
          rcases hr : update_process_states wait rest wnohang with e | ⟨rest', rfin, rq⟩ <;>
            rw [hr] at h <;> simp only [bind, Except.bind] at h <;> simp at h
          obtain ⟨rfl, rfl, rfl⟩ := h
          obtain ⟨ih1, ih2, ih3, ih4⟩ := ih rest' rfin rq hr
          refine ⟨?_, ?_, ?_, ?_⟩
          · simpa using ih1
          · simp [hf, ih2]
          · exact List.Forall₂.cons (fun hc => absurd hc (by simp [hf])) ih3
          · intro hwf
            exact fun t ht => by
              rcases List.mem_cons.mp ht with h1 | h2
              · subst h1; rfl
              · exact ih4 hwf t h2
    · -- s finished: h is the bind
      rcases hr : update_process_states wait rest wnohang with e | ⟨rest', rfin, rq⟩ <;>
        rw [hr] at h <;> simp only [bind, Except.bind] at h <;> simp at h
      obtain ⟨rfl, rfl, rfl⟩ := h
      obtain ⟨ih1, ih2, ih3, ih4⟩ := ih rest' rfin rq hr
      refine ⟨?_, ?_, ?_, ?_⟩
      · simpa [hf] using ih1
      · simp [hf, ih2]
      · exact List.Forall₂.cons (fun _ => rfl) ih3
      · intro hw
        simpa [hf] using ih4 hw

/-- Pointwise-preservation plus all-finished input forces an unchanged output
list. -/
lemma forall₂_finished_eq {l l' : List ProcessState}
    (h : List.Forall₂ (fun s s' => s.finished = true → s' = s) l l')
    (hall : ∀ s ∈ l, s.finished = true) : l' = l := by
  induction h with
  | nil => rfl
  | @cons a b l₁ l₂ hrel htail ih =>
    have hb : b = a := hrel (hall a (by simp))
    have : l₂ = l₁ := ih (fun s hs => hall s (by simp [hs]))
    simp [hb, this]

/-- C2: a returning wait/poll call reports true if and only if every entry in
the list is finished at the moment the call returns. -/
theorem poll_true_iff_all_finished (wait : Int → Bool → Int × Int)
    (states : List ProcessState) (wnohang : Bool)
    (states' : List ProcessState) (fin : Bool) (queried : List Int)
    (h : update_process_states wait states wnohang = .ok (states', fin, queried)) :
    fin = true ↔ ∀ s ∈ states', s.finished = true :=
  (update_spec wait wnohang states states' fin queried h).1

/-- Witness for C2: one unfinished entry polled non-blocking with no status
yet gives a false report, and indeed not all entries are finished. -/
theorem poll_true_iff_all_finished_witness :
    (false = true ↔ ∀ s ∈ [ProcessState.new "a" 5], s.finished = true) :=
  poll_true_iff_all_finished (fun _ _ => (0, 0)) [ProcessState.new "a" 5] true
    [ProcessState.new "a" 5] false [5] rfl

/-- C4: a returning wait/poll call queries exactly the entries whose finished
flag was false on entry; entries already finished are neither queried nor
modified, and a call on an all-finished list queries nothing and changes
nothing. -/
theorem poll_skips_finished (wait : Int → Bool → Int × Int)
    (states : List ProcessState) (wnohang : Bool)
    (states' : List ProcessState) (fin : Bool) (queried : List Int)
    (h : update_process_states wait states wnohang = .ok (states', fin, queried)) :
    queried = (states.filter (fun s => !s.finished)).map (fun s => s.pid) ∧
    List.Forall₂ (fun s s' => s.finished = true → s' = s) states states' ∧
    ((∀ s ∈ states, s.finished = true) →
      states' = states ∧ queried = [] ∧ fin = true) := by
  obtain ⟨h1, h2, h3, _⟩ := update_spec wait wnohang states states' fin queried h
  refine ⟨h2, h3, fun hall => ⟨forall₂_finished_eq h3 hall, ?_, ?_⟩⟩
  · rw [h2]
    have : states.filter (fun s => !s.finished) = [] := by
      simp only [List.filter_eq_nil_iff]
      intro a ha
      simp [hall a ha]
    simp [this]
  · rw [h1]
    intro s hs
    exact hall s (forall₂_finished_eq h3 hall ▸ hs)

/-- Witness for C4: on a list with one finished and one unfinished entry, the
single query goes to the unfinished pid only. -/
theorem poll_skips_finished_witness :
    [(6 : Int)] =
      (([ProcessState.mk "a" 5 true 0, ProcessState.new "b" 6].filter
        (fun s => !s.finished)).map (fun s => s.pid)) :=
  (poll_skips_finished (fun _ _ => (6, 0))
    [ProcessState.mk "a" 5 true 0, ProcessState.new "b" 6] true
    [ProcessState.mk "a" 5 true 0, ProcessState.mk "b" 6 true 0] true [6] rfl).1

/-! ## Theorems about the chain builder (claim C9) -/

/-- Successful `mapM` over `Except` maps each element in place. -/
lemma mapM_except_spec {α β : Type} (f : α → Except String β) :
    ∀ (l : List α) (out : List β), l.mapM f = .ok out →
      out.length = l.length ∧
      ∀ i (h : i < l.length) (h' : i < out.length),
        f (l.get ⟨i, h⟩) = .ok (out.get ⟨i, h'⟩) := by
  intro l
  induction l with
  | nil =>
    intro out h
    simp only [List.mapM_nil, pure, Except.pure, Except.ok.injEq] at h
    subst h
    simp
  | cons a t ih =>
    intro out h
    rw [List.mapM_cons] at h
    rcases ha : f a with e | y <;> rw [ha] at h <;>
      simp only [bind, Except.bind] at h
    · simp at h
    rcases ht : t.mapM f with e | ys <;> rw [ht] at h <;>
      simp only [bind, Except.bind, pure, Except.pure, Except.ok.injEq] at h
    · exact absurd h (by simp)
    subst h
    obtain ⟨ih1, ih2⟩ := ih ys ht
    refine ⟨by simp [ih1], ?_⟩
    intro i hi hi'
    cases i with
    | zero => simpa using ha
    | succ j =>
      have hj : j < t.length := by simp at hi; omega
      have hj' : j < ys.length := by simp at hi'; omega
      simp only [List.get_cons_succ]
      exact ih2 j hj hj'

/-- The first/last flags survive `BasicCmdBuilder.build` unchanged. -/
lemma basic_build_flags (b : BasicCmdBuilder) (c : BasicCmd)
    (h : b.build = .ok c) : c.is_first = b.is_first ∧ c.is_last = b.is_last := by
  unfold BasicCmdBuilder.build at h
  cases he : b.args.isEmpty <;> rw [he] at h <;> simp at h
  rcases hx : b.executable with _ | e <;> rw [hx] at h <;> simp at h
  subst h
  simp

/-- Length and elementwise form of the flagging loop. -/
lemma flag_cmds_spec (b : CmdChainBuilder) :
    b.flag_cmds.length = b.cmds.length ∧
    ∀ i (h : i < b.flag_cmds.length) (h' : i < b.cmds.length),
      b.flag_cmds.get ⟨i, h⟩ =
        ((b.cmds.get ⟨i, h'⟩).set_is_first (i == 0)).set_is_last
          (i + 1 == b.cmds.length) := by
  unfold CmdChainBuilder.flag_cmds
  refine ⟨by simp [List.length_zipWith], ?_⟩
  intro i h h'
  simp [List.get_eq_getElem, List.getElem_zipWith]

/-- C9 (amended): a chain built from a non-empty command-builder list has the
same number of stages, and stage `i` has `is_first` true exactly when `i = 0`
and `is_last` true exactly when `i` is the final index — so exactly one stage
is first and exactly one is last, the same stage when the length is 1.  (The
builder itself does not reject an empty command list; see the
counterexample.) -/
theorem chain_builder_positions (b : CmdChainBuilder) (c : CmdChain)
    (hne : b.cmds ≠ []) (hok : b.build = .ok c) :
    c.cmds ≠ [] ∧ c.cmds.length = b.cmds.length ∧
    ∀ i (h : i < c.cmds.length),
      ((c.cmds.get ⟨i, h⟩).is_first = true ↔ i = 0) ∧
      ((c.cmds.get ⟨i, h⟩).is_last = true ↔ i + 1 = c.cmds.length) := by
  unfold CmdChainBuilder.build at hok
  rcases hm : b.flag_cmds.mapM BasicCmdBuilder.build with e | built <;> rw [hm] at hok <;>
    simp only [bind, Except.bind] at hok
  · simp at hok
  simp at hok
  subst hok
  obtain ⟨hlen, helem⟩ := mapM_except_spec BasicCmdBuilder.build b.flag_cmds built hm
  obtain ⟨hflen, hfelem⟩ := flag_cmds_spec b
  have hblen : built.length = b.cmds.length := by rw [hlen, hflen]
  have hbne : built ≠ [] := by
    intro hb
    rw [hb] at hblen
    exact hne (List.length_eq_zero.mp hblen.symm)
  refine ⟨hbne, hblen, ?_⟩
  intro i h
  have hib : i < b.cmds.length := by rw [← hblen]; exact h
  have hif : i < b.flag_cmds.length := by rw [hflen]; exact hib
  have hbuild := helem i hif h
  rw [hfelem i hif hib] at hbuild
  obtain ⟨h1, h2⟩ := basic_build_flags _ _ hbuild
  simp only [BasicCmdBuilder.set_is_last, BasicCmdBuilder.set_is_first] at h1 h2
  constructor
  · rw [h1]
    simp
  · rw [h2, hblen]
    simp

/-- Counterexample to C9 as stated: the chain builder accepts an empty command
list and produces an empty chain, which is not a non-empty sequence with a
first and a last stage. -/
theorem chain_builder_empty_chain :
    CmdChainBuilder.new.build = .ok { background := false, cmds := [] } ∧
    ({ background := false, cmds := [] } : CmdChain).cmds.length = 0 :=
  ⟨rfl, rfl⟩

/-- Witness for C9: building a two-command builder yields first/last flags
determined by position. -/
theorem chain_builder_positions_witness :
    ([BasicCmd.mk "echo" ["echo"] none none true false,
      BasicCmd.mk "wc" ["wc"] none none false true] : List BasicCmd) ≠ [] ∧
    (2 : Nat) = 2 ∧
    (((([BasicCmd.mk "echo" ["echo"] none none true false,
        BasicCmd.mk "wc" ["wc"] none none false true].get
          ⟨0, by decide⟩).is_first = true) ↔ (0 : Nat) = 0)) := by
  have h := chain_builder_positions
    (CmdChainBuilder.mk false
      [BasicCmdBuilder.mk (some "echo") ["echo"] none none false false,
       BasicCmdBuilder.mk (some "wc") ["wc"] none none false false])
    (CmdChain.mk false
      [BasicCmd.mk "echo" ["echo"] none none true false,
       BasicCmd.mk "wc" ["wc"] none none false true])
    (by decide) rfl
  exact ⟨h.1, by rfl, (h.2.2 0 (by decide)).1⟩

/-! ## Theorems about the Pipeline Orchestrator (claims C1, C3) -/

/-- Shape of a successful fork loop: one recorded pid per stage, and a pipe is
created at stage `i` exactly when stage `i` is not last. -/
lemma fork_ok_spec (sys : PipeEvent → Bool) (forkRes : Nat → Int) :
    ∀ (cmds : List BasicCmd) (i : Nat) (ptc ptn : Option Pipe) (fd : Int)
      (r : ForkLoopResult),
      forkLoop sys forkRes cmds i ptc ptn fd = .ok r →
      r.pids.length = cmds.length ∧
      r.created = cmds.map (fun c => !c.is_last) := by
  intro cmds
  induction cmds with
  | nil =>
    intro i ptc ptn fd r h
    simp only [forkLoop] at h
    simp at h
    subst h
    simp
  | cons cmd rest ih =>
    intro i ptc ptn fd r h
    simp only [forkLoop] at h
    by_cases hguard : (!cmd.is_last && !sys (.pipe_create fd (fd + 1))) = true
    · rw [if_pos hguard] at h
      simp at h
    rw [if_neg hguard] at h
    by_cases hneg : (forkRes i == -1) = true
    · rw [if_pos hneg] at h
      simp at h
    rw [if_neg hneg] at h
    by_cases hpos : forkRes i > 0
    · rw [if_pos hpos] at h
      rcases hmc : (if ptn.isSome then ptn else ptc) with _ | p <;> rw [hmc] at h <;>
        simp only [bind, Except.bind, pure, Except.pure] at h
      · split at h
        · exact absurd h (by simp)
        · rename_i v hr
          simp at h
          subst h
          obtain ⟨ih1, ih2⟩ := ih _ _ _ _ _ hr
          simp [ih1, ih2]
      · rcases hpc : p.parent_close_all sys with e | ⟨q, evs⟩ <;> rw [hpc] at h <;>
          simp only [bind, Except.bind, pure, Except.pure] at h
        · simp at h
        split at h
        · exact absurd h (by simp)
        · rename_i v hr
          simp at h
          subst h
          obtain ⟨ih1, ih2⟩ := ih _ _ _ _ _ hr
          simp [ih1, ih2]
    · rw [if_neg hpos] at h
      simp at h

/-- With all descriptor syscalls succeeding, parent release always succeeds. -/
lemma parent_close_all_ok (sys : PipeEvent → Bool) (hsys : ∀ e, sys e = true)
    (p : Pipe) : ∃ q evs, p.parent_close_all sys = .ok (q, evs) := by
  unfold Pipe.parent_close_all
  cases hw : p.write_closed <;> cases hr : p.read_closed <;>
    simp [hw, hr, hsys]

/-- With all syscalls and forks succeeding, the fork loop succeeds. -/
lemma fork_success (sys : PipeEvent → Bool) (forkRes : Nat → Int)
    (hsys : ∀ e, sys e = true) (hfork : ∀ i, 0 < forkRes i) :
    ∀ (cmds : List BasicCmd) (i : Nat) (ptc ptn : Option Pipe) (fd : Int),
      ∃ r, forkLoop sys forkRes cmds i ptc ptn fd = .ok r := by
  intro cmds
  induction cmds with
  | nil => intro i ptc ptn fd; exact ⟨_, rfl⟩
  | cons cmd rest ih =>
    intro i ptc ptn fd
    simp only [forkLoop]
    have h1 : (!cmd.is_last && !sys (.pipe_create fd (fd + 1))) = false := by
      simp [hsys]
    rw [h1]
    have h2 : (forkRes i == -1) = false := by
      have := hfork i
      simp only [beq_eq_false_iff_ne, ne_eq]
      omega
    rw [h2]
    simp only [Bool.false_eq_true, if_false]
    rw [if_pos (hfork i)]
    rcases hmc : (if ptn.isSome then ptn else ptc) with _ | p <;>
      simp only [bind, Except.bind, pure, Except.pure]
    · obtain ⟨r', hr⟩ := ih (i + 1) none
        (if (!cmd.is_last) = true then some (Pipe.new fd (fd + 1))
         else if ptn.isSome = true then none else ptn)
        (if (!cmd.is_last) = true then fd + 2 else fd)
      rw [hr]
      exact ⟨_, rfl⟩
    · obtain ⟨q, evs, hpc⟩ := parent_close_all_ok sys hsys p
      rw [hpc]
      simp only [bind, Except.bind, pure, Except.pure]
      obtain ⟨r', hr⟩ := ih (i + 1) (some q)
        (if (!cmd.is_last) = true then some (Pipe.new fd (fd + 1))
         else if ptn.isSome = true then none else ptn)
        (if (!cmd.is_last) = true then fd + 2 else fd)
      rw [hr]
      exact ⟨_, rfl⟩

/-- If no waitpid call reports an OS-level failure, the wait/poll pass
succeeds. -/
lemma update_ok (wait : Int → Bool → Int × Int)
    (hwait : ∀ pid w, (wait pid w).1 ≠ -1) :
    ∀ (states : List ProcessState) (wnohang : Bool),
      ∃ out, update_process_states wait states wnohang = .ok out := by
  intro states
  induction states with
  | nil => intro w; exact ⟨_, rfl⟩
  | cons s rest ih =>
    intro w
    simp only [update_process_states]
    cases hf : s.finished
    · simp only [hf, Bool.false_eq_true, if_false]
      rcases hw : wait s.pid w with ⟨res, status⟩
      by_cases hc : (w && res == 0) = true
      · rw [if_pos hc]
        obtain ⟨out, hr⟩ := ih w
        rw [hr]
        simp only [bind, Except.bind]
        exact ⟨_, rfl⟩
      · rw [if_neg hc]
        have hres : (res == -1) = false := by
          have h3 := hwait s.pid w
          rw [hw] at h3
          simp only [beq_eq_false_iff_ne, ne_eq]
          exact h3
        rw [hres]
        simp only [Bool.false_eq_true, if_false]
        simp only [ProcessState.finish, hf, Bool.false_eq_true, if_false]
        simp only [bind, Except.bind]
        obtain ⟨out, hr⟩ := ih w
        rw [hr]
        exact ⟨_, rfl⟩
    · simp only [hf, if_true]
      obtain ⟨out, hr⟩ := ih w
      rw [hr]
      simp only [bind, Except.bind]
      exact ⟨_, rfl⟩

/-- Every freshly built process state is unfinished. -/
lemma initialStates_unfinished :
    ∀ (cs : List BasicCmd) (ps : List Int) (s : ProcessState),
      s ∈ initialStates cs ps → s.finished = false := by
  intro cs
  induction cs with
  | nil => intro ps s hs; simp [initialStates] at hs
  | cons c ct ih =>
    intro ps s hs
    cases ps with
    | nil => simp [initialStates] at hs
    | cons p pt =>
      simp only [initialStates, List.zipWith_cons_cons, List.mem_cons] at hs
      rcases hs with h | h
      · rw [h]; rfl
      · exact ih pt s h

/-- The pids of the freshly built process states are the recorded pids. -/
lemma initialStates_map_pid :
    ∀ (cs : List BasicCmd) (ps : List Int), ps.length = cs.length →
      (initialStates cs ps).map (fun s => s.pid) = ps := by
  intro cs
  induction cs with
  | nil =>
    intro ps h
    rw [List.length_nil] at h
    rw [List.length_eq_zero.mp h]
    rfl
  | cons c ct ih =>
    intro ps h
    cases ps with
    | nil => simp at h
    | cons p pt =>
      simp only [initialStates, List.zipWith_cons_cons, List.map_cons]
      simp only [List.length_cons, Nat.succ.injEq] at h
      have h2 := ih pt h
      simp only [initialStates] at h2
      rw [h2]
      rfl

/-- When the stage flags are consistent with position, the number of stages
that are not last is the length minus one. -/
lemma count_not_last (cmds : List BasicCmd)
    (hlast : ∀ i (h : i < cmds.length),
      (cmds.get ⟨i, h⟩).is_last = (i + 1 == cmds.length)) :
    (cmds.map (fun c => !c.is_last)).count true = cmds.length - 1 := by
  induction cmds with
  | nil => simp
  | cons c t ih =>
    have hc := hlast 0 (by simp)
    have ht : ∀ i (h : i < t.length),
        (t.get ⟨i, h⟩).is_last = (i + 1 == t.length) := by
      intro i h
      have h2 := hlast (i + 1) (by simp only [List.length_cons]; omega)
      simpa using h2
    cases t with
    | nil =>
      simp only [List.length_cons, List.length_nil] at hc
      simp at hc
      simp [hc]
    | cons d t2 =>
      have hcf : c.is_last = false := by
        have hc2 : c.is_last = (0 + 1 == t2.length + 1 + 1) := hc
        rw [hc2]
        simp only [beq_eq_false_iff_ne, ne_eq]
        omega
      have hcount := ih ht
      simp [hcf, List.count_cons] at hcount ⊢
      omega

/-- C1: for every chain whose first/last flags are consistent with position,
executing the chain (with all syscalls and forks succeeding) creates a pipe at
stage `i` exactly when stage `i` is not last — so exactly N-1 pipes for a
chain of length N, and zero pipes for a single-stage chain. -/
theorem pipes_created_count (sys : PipeEvent → Bool) (forkRes : Nat → Int)
    (wait : Int → Bool → Int × Int) (chain : CmdChain)
    (hsys : ∀ e, sys e = true) (hfork : ∀ i, 0 < forkRes i)
    (hwait : ∀ pid w, (wait pid w).1 ≠ -1)
    (hfirst : ∀ i (h : i < chain.cmds.length),
      (chain.cmds.get ⟨i, h⟩).is_first = (i == 0))
    (hlast : ∀ i (h : i < chain.cmds.length),
      (chain.cmds.get ⟨i, h⟩).is_last = (i + 1 == chain.cmds.length)) :
    ∃ r, execute_piped_cmd_chain sys forkRes wait chain = .ok r ∧
      r.created = chain.cmds.map (fun c => !c.is_last) ∧
      r.created.count true = chain.length - 1 ∧
      (chain.length = 1 → r.created.count true = 0) := by
  obtain ⟨r0, hr0⟩ := fork_success sys forkRes hsys hfork chain.cmds 0 none none 3
  obtain ⟨hlen0, hcreated⟩ := fork_ok_spec sys forkRes chain.cmds 0 none none 3 r0 hr0
  obtain ⟨⟨states', fin, queried⟩, hupd⟩ :=
    update_ok wait hwait (initialStates chain.cmds r0.pids) chain.background
  refine ⟨⟨states', fin, queried, r0.pids, r0.created⟩, ?_, ?_, ?_, ?_⟩
  · unfold execute_piped_cmd_chain
    rw [hr0]
    simp only [bind, Except.bind]
    rw [hupd]
  · exact hcreated
  · rw [hcreated]
    exact count_not_last chain.cmds hlast
  · intro h1
    rw [hcreated, count_not_last chain.cmds hlast]
    unfold CmdChain.length at h1
    omega

/-- Witness for C1: a two-stage foreground chain with consistent flags runs
with all oracles succeeding and creates exactly one pipe, at stage 0. -/
theorem pipes_created_count_witness :
    ∃ r, execute_piped_cmd_chain (fun _ => true) (fun _ => 1) (fun _ _ => (1, 0))
      (CmdChain.mk false
        [BasicCmd.mk "echo" ["echo"] none none true false,
         BasicCmd.mk "wc" ["wc"] none none false true]) = .ok r ∧
      r.created = [true, false] ∧
      r.created.count true = 1 ∧
      ((2 : Nat) = 1 → r.created.count true = 0) :=
  pipes_created_count (fun _ => true) (fun _ => 1) (fun _ _ => (1, 0))
    (CmdChain.mk false
      [BasicCmd.mk "echo" ["echo"] none none true false,
       BasicCmd.mk "wc" ["wc"] none none false true])
    (fun _ => rfl) (fun _ => (by decide : (0 : Int) < 1))
    (fun _ _ => (by decide : (1 : Int) ≠ -1))
    (by decide) (by decide)

/-- C3: after forking, `execute_piped_cmd_chain` performs exactly one
wait/poll pass — each recorded pid is queried exactly once, in order — whose
blocking selector is the chain's background flag: a foreground chain returns
only finished states, and a background chain's returned states are exactly
those of a single non-blocking sweep over the fresh states. -/
theorem execute_single_pass (sys : PipeEvent → Bool) (forkRes : Nat → Int)
    (wait : Int → Bool → Int × Int) (chain : CmdChain) (r : ExecResult)
    (hok : execute_piped_cmd_chain sys forkRes wait chain = .ok r) :
    r.queried = r.pids ∧
    (chain.background = false → ∀ s ∈ r.states, s.finished = true) ∧
    (chain.background = true →
      update_process_states wait (initialStates chain.cmds r.pids) true =
        .ok (r.states, r.all_finished, r.queried)) := by
  unfold execute_piped_cmd_chain at hok
  rcases hf : forkLoop sys forkRes chain.cmds 0 none none 3 with e | r0 <;>
    rw [hf] at hok <;> simp only [bind, Except.bind] at hok
  · simp at hok
  rcases hu : update_process_states wait (initialStates chain.cmds r0.pids)
      chain.background with e | out <;>
    rw [hu] at hok <;> simp only [bind, Except.bind] at hok
  · simp at hok
  rcases out with ⟨states', fin, queried⟩
  simp at hok
  subst hok
  obtain ⟨hlen0, _⟩ := fork_ok_spec sys forkRes chain.cmds 0 none none 3 r0 hf
  obtain ⟨h1, h2, h3, h4⟩ := update_spec wait chain.background
    (initialStates chain.cmds r0.pids) states' fin queried hu
  refine ⟨?_, ?_, ?_⟩
  · show queried = r0.pids
    rw [h2]
    have hfilter : (initialStates chain.cmds r0.pids).filter (fun s => !s.finished) =
        initialStates chain.cmds r0.pids := by
      rw [List.filter_eq_self]
      intro a ha
      simp [initialStates_unfinished chain.cmds r0.pids a ha]
    rw [hfilter]
    exact initialStates_map_pid chain.cmds r0.pids hlen0
  · intro hbg
    exact h4 hbg
  · intro hbg
    rw [hbg] at hu
    exact hu

/-- Witness for C3: a concrete one-stage foreground chain returns a single
query of pid 1 and a finished state. -/
theorem execute_single_pass_witness :
    ([(1 : Int)] = [(1 : Int)]) ∧
    (false = false → ∀ s ∈ [ProcessState.mk "echo" 1 true 0], s.finished = true) := by
  have h := execute_single_pass (fun _ => true) (fun _ => 1) (fun _ _ => (1, 0))
    (CmdChain.mk false [BasicCmd.mk "echo" ["echo"] none none true true])
    (ExecResult.mk [ProcessState.mk "echo" 1 true 0] true [1] [1] [false])
    rfl
  exact ⟨h.1, fun _ => h.2.1 rfl⟩

end UnixExecPiper
